import Mathlib

/-!
Shallow embedding of `pythonparser/source.py`: the `Buffer` position index,
the `Range` span algebra and the conflict-checked `Rewriter`, together with
theorems settling the specification claims about them.

Python integers are modelled as `Int`; Python string slicing (which wraps
negative indices by the string length and clamps the result into bounds) is
modelled by `pyResolveIndex`/`pySlice`; code that raises exceptions is
modelled as returning `Except PyError`.
-/

namespace PythonSource

/-- Resolution of a Python slice bound `i` against a string of length `n`:
a negative bound is offset by `n` (wrap-around), then the result is clamped
into `[0, n]`. -/
def pyResolveIndex (n : Nat) (i : Int) : Nat :=
  if i < 0 then ((n : Int) + i).toNat else min n i.toNat

/-- Python `s[b:e]` for integer bounds `b`, `e`. -/
def pySlice (s : String) (b e : Int) : String :=
  String.mk ((s.data.take (pyResolveIndex s.length e)).drop (pyResolveIndex s.length b))

/-- Python `s[b:]` for an integer bound `b`. -/
def pySliceFrom (s : String) (b : Int) : String :=
  String.mk (s.data.drop (pyResolveIndex s.length b))

/-- `source.Buffer`: source text, display name and first line number.
The lazily cached `_line_begins` field is pure caching of the function
`Buffer.line_begins` below and has no observable state of its own. -/
structure Buffer where
  source : String
  name : String
  first_line : Int
deriving DecidableEq

/-- `source.Range`: a span `[begin_pos, end_pos)` of a `Buffer`. -/
structure Range where
  source_buffer : Buffer
  begin_pos : Int
  end_pos : Int
deriving DecidableEq

/-- Error channel of the embedding.  `indexError` models Python `IndexError`,
`valueError` models `ValueError`, `nameError s` models a `NameError` raised
by evaluating the undefined name `s`, and `rewriterConflict` models a fully
constructed `source.RewriterConflict` exception carrying the two offending
ranges. -/
inductive PyError where
  | indexError : PyError
  | valueError : PyError
  | nameError : String → PyError
  | rewriterConflict : Range → Range → PyError
deriving DecidableEq

/-- The scanning loop of `Buffer._extract_line_begins`: for the characters
`cs` starting at absolute offset `i`, the offsets just past each newline
character, in order. -/
def lineBeginsFrom : List Char → Int → List Int
  | [], _ => []
  | c :: cs, i =>
    if c = '\n' then (i + 1) :: lineBeginsFrom cs (i + 1)
    else lineBeginsFrom cs (i + 1)

/-- `Buffer._extract_line_begins`: `[0]` followed by the offset just past
each newline of the source, in order. -/
def Buffer.line_begins (b : Buffer) : List Int :=
  0 :: lineBeginsFrom b.source.data 0

/-- `bisect.bisect_right` on a sorted list: the insertion point, which for a
sorted list equals the number of elements `≤ x`.  `Buffer.line_begins` is
sorted (proved below), so this counting form agrees with the binary search
the code performs. -/
def bisect_right (l : List Int) (x : Int) : Nat :=
  l.countP (fun a => decide (a ≤ x))

/-- `Buffer.decompose_position`: line/column of a character offset, or
`IndexError` when the offset lies outside `[0, length source]`.  The list
index taken by the code is provably in bounds in the branch that reads it,
so it is rendered with `List.getD`. -/
def Buffer.decompose_position (b : Buffer) (offset : Int) : Except PyError (Int × Int) :=
  if 0 ≤ offset ∧ offset ≤ (b.source.length : Int) then
    Except.ok (((bisect_right b.line_begins offset : Nat) : Int) - 1 + b.first_line,
      offset - b.line_begins.getD (((bisect_right b.line_begins offset : Nat) : Int) - 1).toNat 0)
  else
    Except.error PyError.indexError

/-- `Buffer.source_line`: the text of line `lineno` (shifted by
`first_line`), or `IndexError` when the zero-based index is out of range.
The first branch slices between two consecutive line starts, the second
(reached exactly for the last line) slices from the last line start
(`line_begins[-1]`) to the end of the source. -/
def Buffer.source_line (b : Buffer) (lineno : Int) : Except PyError String :=
  if 0 ≤ lineno - b.first_line ∧ lineno - b.first_line + 1 < (b.line_begins.length : Int) then
    Except.ok (pySlice b.source
      (b.line_begins.getD (lineno - b.first_line).toNat 0)
      (b.line_begins.getD ((lineno - b.first_line).toNat + 1) 0))
  else if 0 ≤ lineno - b.first_line ∧ lineno - b.first_line < (b.line_begins.length : Int) then
    Except.ok (pySliceFrom b.source (b.line_begins.getD (b.line_begins.length - 1) 0))
  else
    Except.error PyError.indexError

/-- `Range.begin`: zero-length range just before this range. -/
def Range.begin (r : Range) : Range :=
  ⟨r.source_buffer, r.begin_pos, r.begin_pos⟩

/-- `Range.end`: zero-length range just after this range (`end` is a Lean
keyword, hence the primed name). -/
def Range.end' (r : Range) : Range :=
  ⟨r.source_buffer, r.end_pos, r.end_pos⟩

/-- `Range.size`. -/
def Range.size (r : Range) : Int :=
  r.end_pos - r.begin_pos

/-- `Range.join`: `ValueError` when the buffers differ, otherwise the
covering range.  Python compares the buffers with `!=`, which for `Buffer`
objects is identity; object identity is rendered as equality of `Buffer`
values in this embedding. -/
def Range.join (r other : Range) : Except PyError Range :=
  if r.source_buffer ≠ other.source_buffer then
    Except.error PyError.valueError
  else
    Except.ok ⟨r.source_buffer, min r.begin_pos other.begin_pos, max r.end_pos other.end_pos⟩

/-- `Range.source`: the slice `source[begin_pos:end_pos]`. -/
def Range.source (r : Range) : String :=
  pySlice r.source_buffer.source r.begin_pos r.end_pos

/-- `source.Rewriter`: a buffer and the accumulated list of
`(range, replacement)` edits in insertion order. -/
structure Rewriter where
  buffer : Buffer
  ranges : List (Range × String)
deriving DecidableEq

/-- `Rewriter.__init__`. -/
def Rewriter.new (b : Buffer) : Rewriter :=
  ⟨b, []⟩

/-- `Rewriter.replace`: append the edit. -/
def Rewriter.replace (r : Rewriter) (range : Range) (replacement : String) : Rewriter :=
  ⟨r.buffer, r.ranges ++ [(range, replacement)]⟩

/-- `Rewriter.remove`. -/
def Rewriter.remove (r : Rewriter) (range : Range) : Rewriter :=
  r.replace range ""

/-- `Rewriter.insert_before`. -/
def Rewriter.insert_before (r : Rewriter) (range : Range) (text : String) : Rewriter :=
  r.replace range.begin text

/-- `Rewriter.insert_after`. -/
def Rewriter.insert_after (r : Rewriter) (range : Range) (text : String) : Rewriter :=
  r.replace range.end' text

/-- Stable insertion of an edit into a list already sorted by `begin_pos`:
the new element goes after every element with a strictly smaller key and
before the first element with a key `≥` its own, so that among equal keys
earlier-inserted edits stay first. -/
def insertByBeginPos (x : Range × String) : List (Range × String) → List (Range × String)
  | [] => [x]
  | y :: ys =>
    if y.1.begin_pos < x.1.begin_pos then y :: insertByBeginPos x ys
    else x :: y :: ys

/-- `Rewriter._sort`: Python `list.sort(key=lambda x: x[0].begin_pos)` is a
stable sort by `begin_pos`; any stable sort by the same key produces the
identical list, and a stable insertion sort is used here. -/
def sortByBeginPos : List (Range × String) → List (Range × String)
  | [] => []
  | x :: xs => insertByBeginPos x (sortByBeginPos xs)

/-- The accumulated edits after `Rewriter._sort`. -/
def Rewriter.sortedRanges (r : Rewriter) : List (Range × String) :=
  sortByBeginPos r.ranges

/-- `Rewriter._check`: scan consecutive pairs of the sorted edits and report
the first pair whose second member begins strictly before the first member
ends. -/
def checkEdits : List (Range × String) → Option (Range × Range)
  | (f, _) :: (s, t) :: rest =>
    if s.begin_pos < f.end_pos then some (f, s)
    else checkEdits ((s, t) :: rest)
  | _ => none

/-- The splice loop of `Rewriter.rewrite`: copy the source from the cursor
up to each edit's `begin_pos`, emit the replacement, move the cursor to the
edit's `end_pos`; after the last edit copy the tail of the source. -/
def spliceLoop (src : String) : List (Range × String) → Int → String
  | [], pos => pySliceFrom src pos
  | (range, replacement) :: rest, pos =>
    pySlice src pos range.begin_pos ++ replacement ++ spliceLoop src rest range.end_pos

/-- `Rewriter.rewrite`: sort, check, then splice into a new buffer with the
same name and first line.  When the check finds an overlapping pair the code
executes `raise RewriterConflict(fst, snd)`, but `RewriterConflict.__init__`
(line 183 of `source.py`) calls `exception.__init__`, and `exception` is an
undefined name, so the evaluation raises `NameError` for the name
`exception` before the conflict exception finishes construction — hence the
error value is `PyError.nameError "exception"`, not a
`PyError.rewriterConflict`. -/
def Rewriter.rewrite (r : Rewriter) : Except PyError Buffer :=
  match checkEdits r.sortedRanges with
  | some _ => Except.error (PyError.nameError "exception")
  | none =>
    Except.ok ⟨spliceLoop r.buffer.source r.sortedRanges 0, r.buffer.name, r.buffer.first_line⟩

/-- The absolute offsets of the newline characters of `cs`, when `cs` starts
at offset `i`; used to state what `line_begins` contains. -/
def newlinePositions : List Char → Int → List Int
  | [], _ => []
  | c :: cs, i =>
    if c = '\n' then i :: newlinePositions cs (i + 1)
    else newlinePositions cs (i + 1)

/-- Concrete buffer used by the scenario claims. -/
def abcdeBuf : Buffer :=
  ⟨"abcde", "<input>", 1⟩

/-- Concrete buffer distinct from `abcdeBuf`, for cross-buffer scenarios. -/
def otherBuf : Buffer :=
  ⟨"zzz", "<other>", 1⟩

/-- Concrete buffer of the line scenarios. -/
def linesBuf : Buffer :=
  ⟨"ab\ncd\nef", "<input>", 1⟩

/-- The spec scenario rewriter: on `"abcde"`, replace `[0,2)` by `"XY"` and
remove `[3,5)`. -/
def scenRw : Rewriter :=
  (Rewriter.new abcdeBuf).replace ⟨abcdeBuf, 0, 2⟩ "XY" |>.remove ⟨abcdeBuf, 3, 5⟩

/-- The spec overlap scenario rewriter: edits `[0,5)` and `[3,8)` overlap. -/
def conflictRw : Rewriter :=
  (Rewriter.new abcdeBuf).remove ⟨abcdeBuf, 0, 5⟩ |>.remove ⟨abcdeBuf, 3, 8⟩

/-- A rewriter with touching edits: the second begins exactly where the
first ends. -/
def touchRw : Rewriter :=
  (Rewriter.new abcdeBuf).remove ⟨abcdeBuf, 0, 2⟩ |>.remove ⟨abcdeBuf, 2, 4⟩

/-- A rewriter whose single edit carries a foreign buffer and out-of-bounds
offsets; exercises the absence of ownership and bounds checks. -/
def weirdRw : Rewriter :=
  (Rewriter.new abcdeBuf).replace ⟨otherBuf, -2, 10⟩ "Q"

deriving instance DecidableEq for Except

lemma string_mk_data (s : String) : String.mk s.data = s :=
  rfl

lemma lineBeginsFrom_eq_map (cs : List Char) :
    ∀ i : Int, lineBeginsFrom cs i = (newlinePositions cs i).map (fun p => p + 1) := by
  induction cs with
  | nil => intro i; rfl
  | cons c cs ih =>
    intro i
    by_cases hc : c = '\n' <;> simp [lineBeginsFrom, newlinePositions, hc, ih]

lemma newlinePositions_le (cs : List Char) :
    ∀ i x : Int, x ∈ newlinePositions cs i → i ≤ x := by
  induction cs with
  | nil => intro i x hx; simp [newlinePositions] at hx
  | cons c cs ih =>
    intro i x hx
    by_cases hc : c = '\n'
    · rw [newlinePositions, if_pos hc] at hx
      rcases List.mem_cons.mp hx with h | h
      · omega
      · have := ih (i + 1) x h; omega
    · rw [newlinePositions, if_neg hc] at hx
      have := ih (i + 1) x hx; omega

lemma newlinePositions_sorted (cs : List Char) :
    ∀ i : Int, List.Pairwise (· < ·) (newlinePositions cs i) := by
  induction cs with
  | nil => intro i; simp [newlinePositions]
  | cons c cs ih =>
    intro i
    by_cases hc : c = '\n'
    · rw [newlinePositions, if_pos hc, List.pairwise_cons]
      refine ⟨fun x hx => ?_, ih (i + 1)⟩
      have := newlinePositions_le cs (i + 1) x hx; omega
    · rw [newlinePositions, if_neg hc]
      exact ih (i + 1)

lemma newlinePositions_length (cs : List Char) :
    ∀ i : Int, (newlinePositions cs i).length = cs.count '\n' := by
  induction cs with
  | nil => intro i; simp [newlinePositions]
  | cons c cs ih =>
    intro i
    by_cases hc : c = '\n' <;>
      simp [newlinePositions, hc, ih, List.count_cons]

lemma checkEdits_none_of_chain (l : List (Range × String))
    (h : List.Chain' (fun a b : Range × String => a.1.end_pos ≤ b.1.begin_pos) l) :
    checkEdits l = none := by
  induction l with
  | nil => rfl
  | cons x xs ih =>
    cases xs with
    | nil => rfl
    | cons y rest =>
      rw [List.chain'_cons] at h
      obtain ⟨x1, x2⟩ := x
      obtain ⟨y1, y2⟩ := y
      simp only [checkEdits]
      rw [if_neg (not_lt.mpr h.1)]
      exact ih h.2

lemma checkEdits_some_overlap (l : List (Range × String)) (f s : Range)
    (h : checkEdits l = some (f, s)) : s.begin_pos < f.end_pos := by
  induction l with
  | nil => simp [checkEdits] at h
  | cons x xs ih =>
    cases xs with
    | nil =>
      obtain ⟨x1, x2⟩ := x
      simp [checkEdits] at h
    | cons y rest =>
      obtain ⟨x1, x2⟩ := x
      obtain ⟨y1, y2⟩ := y
      simp only [checkEdits] at h
      by_cases hc : y1.begin_pos < x1.end_pos
      · rw [if_pos hc] at h
        obtain ⟨hf, hs⟩ := Prod.mk.injEq .. ▸ Option.some.injEq .. ▸ h
        subst hf; subst hs; exact hc
      · rw [if_neg hc] at h
        exact ih h

lemma rewrite_ok_of_check_none {r : Rewriter} (h : checkEdits r.sortedRanges = none) :
    r.rewrite =
      Except.ok ⟨spliceLoop r.buffer.source r.sortedRanges 0, r.buffer.name, r.buffer.first_line⟩ := by
  rw [Rewriter.rewrite, h]

/-- Claim C4: for every source text, `line_begins` has first element 0, is
strictly increasing, has length equal to the newline count plus one, and its
element `i+1` is the offset just past the `i`-th newline (the whole tail is
the list of newline offsets each shifted by one). -/
theorem C4_line_begins_invariants (b : Buffer) :
    b.line_begins.head? = some 0 ∧
    List.Pairwise (· < ·) b.line_begins ∧
    b.line_begins.length = b.source.data.count '\n' + 1 ∧
    b.line_begins = 0 :: (newlinePositions b.source.data 0).map (fun p => p + 1) := by
  refine ⟨rfl, ?_, ?_, ?_⟩
  · rw [Buffer.line_begins, lineBeginsFrom_eq_map, List.pairwise_cons]
    constructor
    · intro x hx
      obtain ⟨p, hp, rfl⟩ := List.mem_map.mp hx
      have := newlinePositions_le b.source.data 0 p hp
      omega
    · exact List.Pairwise.map _ (fun a b hab => by omega) (newlinePositions_sorted b.source.data 0)
  · rw [Buffer.line_begins, lineBeginsFrom_eq_map]
    simp [newlinePositions_length]
  · rw [Buffer.line_begins, lineBeginsFrom_eq_map]

/-- Claim C3: for every buffer and offset `o` with `0 ≤ o ≤ length source`,
`decompose_position o` succeeds with a pair `(line, col)` such that the
zero-based line index `line - first_line` is in range for `line_begins` and
`line_begins[line - first_line] + col = o`. -/
theorem C3_decompose_position_round_trip (b : Buffer) (o : Int)
    (h0 : 0 ≤ o) (h1 : o ≤ (b.source.length : Int)) :
    ∃ line col : Int,
      b.decompose_position o = Except.ok (line, col) ∧
      0 ≤ line - b.first_line ∧
      (line - b.first_line).toNat < b.line_begins.length ∧
      b.line_begins.getD (line - b.first_line).toNat 0 + col = o := by
  have hk1 : 1 ≤ bisect_right b.line_begins o := by
    rw [Buffer.line_begins, bisect_right,
      List.countP_cons_of_pos _ _ (by simpa using h0)]
    omega
  have hk2 : bisect_right b.line_begins o ≤ b.line_begins.length :=
    List.countP_le_length _
  refine ⟨((bisect_right b.line_begins o : Nat) : Int) - 1 + b.first_line,
    o - b.line_begins.getD (((bisect_right b.line_begins o : Nat) : Int) - 1).toNat 0,
    ?_, ?_, ?_, ?_⟩
  · rw [Buffer.decompose_position, if_pos ⟨h0, h1⟩]
  · omega
  · have he : ((bisect_right b.line_begins o : Nat) : Int) - 1 + b.first_line - b.first_line
        = ((bisect_right b.line_begins o : Nat) : Int) - 1 := by ring
    rw [he]
    omega
  · have he : ((bisect_right b.line_begins o : Nat) : Int) - 1 + b.first_line - b.first_line
        = ((bisect_right b.line_begins o : Nat) : Int) - 1 := by ring
    rw [he]
    omega

/-- Claim C3, witness: the round trip at buffer `"ab\ncd"` and offset 3. -/
theorem C3_decompose_position_round_trip_witness :
    ∃ line col : Int,
      (Buffer.mk "ab\ncd" "<input>" 1).decompose_position 3 = Except.ok (line, col) ∧
      0 ≤ line - (Buffer.mk "ab\ncd" "<input>" 1).first_line ∧
      (line - (Buffer.mk "ab\ncd" "<input>" 1).first_line).toNat <
        (Buffer.mk "ab\ncd" "<input>" 1).line_begins.length ∧
      (Buffer.mk "ab\ncd" "<input>" 1).line_begins.getD
        (line - (Buffer.mk "ab\ncd" "<input>" 1).first_line).toNat 0 + col = 3 :=
  C3_decompose_position_round_trip (Buffer.mk "ab\ncd" "<input>" 1) 3 (by decide) (by decide)

/-- Claim C5: `decompose_position offset` fails with the out-of-range error
exactly when `offset < 0` or `offset > length source`; in particular the
one-past-the-end offset is valid and yields a pair. -/
theorem C5_decompose_position_domain (b : Buffer) (o : Int) :
    (b.decompose_position o = Except.error PyError.indexError ↔
      o < 0 ∨ (b.source.length : Int) < o) ∧
    ∃ p : Int × Int, b.decompose_position (b.source.length : Int) = Except.ok p := by
  constructor
  · by_cases h : 0 ≤ o ∧ o ≤ (b.source.length : Int)
    · rw [Buffer.decompose_position, if_pos h]
      constructor
      · intro hc; exact Except.noConfusion hc
      · intro hor; omega
    · rw [Buffer.decompose_position, if_neg h]
      constructor
      · intro _; omega
      · intro _; rfl
  · exact ⟨_, by rw [Buffer.decompose_position,
      if_pos ⟨Int.natCast_nonneg _, le_refl _⟩]⟩

/-- Claim C6: with zero-based index `l = lineno - first_line`,
`source_line lineno` returns the slice between the starts of lines `l` and
`l+1` when `l` addresses a line strictly before the last, the slice from the
last line's start to the end of the source when `l` addresses exactly the
last line, and the out-of-range error when `l` is negative or at least the
total line count; on `"ab\ncd\nef"` lines 1, 2, 3 are `"ab\n"`, `"cd\n"`,
`"ef"`. -/
theorem C6_source_line_cases (b : Buffer) (lineno : Int) :
    (0 ≤ lineno - b.first_line →
      lineno - b.first_line + 1 < (b.line_begins.length : Int) →
      b.source_line lineno = Except.ok (pySlice b.source
        (b.line_begins.getD (lineno - b.first_line).toNat 0)
        (b.line_begins.getD ((lineno - b.first_line).toNat + 1) 0))) ∧
    (lineno - b.first_line = (b.line_begins.length : Int) - 1 →
      b.source_line lineno =
        Except.ok (pySliceFrom b.source (b.line_begins.getD (b.line_begins.length - 1) 0))) ∧
    (lineno - b.first_line < 0 ∨ (b.line_begins.length : Int) ≤ lineno - b.first_line →
      b.source_line lineno = Except.error PyError.indexError) ∧
    (linesBuf.source_line 1 = Except.ok "ab\n" ∧
      linesBuf.source_line 2 = Except.ok "cd\n" ∧
      linesBuf.source_line 3 = Except.ok "ef") := by
  have hlen : 1 ≤ b.line_begins.length := by
    rw [Buffer.line_begins]
    exact Nat.succ_le_succ (Nat.zero_le _)
  refine ⟨?_, ?_, ?_, by decide, by decide, by decide⟩
  · intro h1 h2
    rw [Buffer.source_line, if_pos ⟨h1, h2⟩]
  · intro h
    rw [Buffer.source_line, if_neg (by omega), if_pos (by omega)]
  · intro h
    rw [Buffer.source_line, if_neg (by omega), if_neg (by omega)]

/-- Claim C6, witness: the three branches exercised on `"ab\ncd\nef"`. -/
theorem C6_source_line_cases_witness :
    linesBuf.source_line 2 = Except.ok "cd\n" ∧
    linesBuf.source_line 3 = Except.ok "ef" ∧
    linesBuf.source_line 0 = Except.error PyError.indexError ∧
    linesBuf.source_line 4 = Except.error PyError.indexError :=
  ⟨((C6_source_line_cases linesBuf 2).1 (by decide) (by decide)).trans (by decide),
    ((C6_source_line_cases linesBuf 3).2.1 (by decide)).trans (by decide),
    (C6_source_line_cases linesBuf 0).2.2.1 (by decide),
    (C6_source_line_cases linesBuf 4).2.2.1 (by decide)⟩

/-- Claim C7: for ranges over equal buffers, `join` returns the range with
the minimum begin and the maximum end; `join` is commutative in result and
idempotent; for different buffers it fails with the cross-buffer
(`ValueError`) error. -/
theorem C7_join_algebra (a b : Range) :
    (a.source_buffer = b.source_buffer →
      a.join b = Except.ok
        ⟨a.source_buffer, min a.begin_pos b.begin_pos, max a.end_pos b.end_pos⟩) ∧
    a.join b = b.join a ∧
    a.join a = Except.ok a ∧
    (a.source_buffer ≠ b.source_buffer → a.join b = Except.error PyError.valueError) := by
  refine ⟨?_, ?_, ?_, ?_⟩
  · intro h
    rw [Range.join, if_neg (not_not_intro h)]
  · by_cases h : a.source_buffer = b.source_buffer
    · rw [Range.join, Range.join, if_neg (not_not_intro h), if_neg (not_not_intro h.symm)]
      rw [h, min_comm, max_comm]
    · rw [Range.join, Range.join, if_pos h, if_pos (fun e => h e.symm)]
  · rw [Range.join, if_neg (not_not_intro rfl)]
    simp
  · intro h
    rw [Range.join, if_pos h]

/-- Claim C7, witness: the spec scenario `Range(buf,0,2).join(Range(buf,5,7))
== Range(buf,0,7)` and a cross-buffer failure. -/
theorem C7_join_algebra_witness :
    (Range.mk abcdeBuf 0 2).join (Range.mk abcdeBuf 5 7) =
      Except.ok (Range.mk abcdeBuf 0 7) ∧
    (Range.mk abcdeBuf 0 2).join (Range.mk otherBuf 0 2) =
      Except.error PyError.valueError :=
  ⟨((C7_join_algebra (Range.mk abcdeBuf 0 2) (Range.mk abcdeBuf 5 7)).1 rfl).trans (by decide),
    (C7_join_algebra (Range.mk abcdeBuf 0 2) (Range.mk otherBuf 0 2)).2.2.2 (by decide)⟩

/-- Claim C1: on the spec's own overlap scenario (`"abcde"` with edits
`[0,5)` and `[3,8)`), the conflict scan does find exactly the overlapping
pair in sorted order, but `rewrite()` fails with `NameError` for the
undefined name `exception` (raised inside `RewriterConflict.__init__`),
not with a `RewriterConflict` carrying the pair as the claim states. -/
theorem C1_conflict_raises_name_error :
    checkEdits conflictRw.sortedRanges =
      some (Range.mk abcdeBuf 0 5, Range.mk abcdeBuf 3 8) ∧
    conflictRw.rewrite = Except.error (PyError.nameError "exception") ∧
    ∀ f s : Range, conflictRw.rewrite ≠ Except.error (PyError.rewriterConflict f s) := by
  refine ⟨by decide, by decide, ?_⟩
  intro f s hc
  rw [show conflictRw.rewrite = Except.error (PyError.nameError "exception") from by decide] at hc
  exact absurd (Except.error.inj hc) (by intro h; exact PyError.noConfusion h)

/-- Claim C2: when the sorted edits are pairwise non-overlapping, `rewrite`
returns a buffer with the original's name and first line whose text is the
cursor splice of the sorted edits; with zero edits the text is the original
source; the `"abcde"` scenario yields `"XYc"`. -/
theorem C2_rewrite_splices :
    (∀ r : Rewriter,
      List.Chain' (fun a b : Range × String => a.1.end_pos ≤ b.1.begin_pos) r.sortedRanges →
      r.rewrite = Except.ok
        ⟨spliceLoop r.buffer.source r.sortedRanges 0, r.buffer.name, r.buffer.first_line⟩) ∧
    (∀ b : Buffer, (Rewriter.new b).rewrite = Except.ok ⟨b.source, b.name, b.first_line⟩) ∧
    scenRw.rewrite = Except.ok (Buffer.mk "XYc" "<input>" 1) := by
  refine ⟨fun r h => rewrite_ok_of_check_none (checkEdits_none_of_chain _ h), fun b => ?_, by decide⟩
  have hs : spliceLoop b.source [] 0 = b.source := by
    simp [spliceLoop, pySliceFrom, pyResolveIndex, string_mk_data]
  calc (Rewriter.new b).rewrite
      = Except.ok (Buffer.mk (spliceLoop b.source [] 0) b.name b.first_line) :=
        rewrite_ok_of_check_none rfl
    _ = Except.ok (Buffer.mk b.source b.name b.first_line) := by rw [hs]

/-- Claim C2, witness: the universal part applied to the `"abcde"` scenario
rewriter, whose sorted edits touch nowhere. -/
theorem C2_rewrite_splices_witness :
    scenRw.rewrite = Except.ok (Buffer.mk "XYc" "<input>" 1) :=
  (C2_rewrite_splices.1 scenRw (by
    rw [show scenRw.sortedRanges =
      [(⟨abcdeBuf, 0, 2⟩, "XY"), (⟨abcdeBuf, 3, 5⟩, "")] from rfl, List.chain'_cons]
    exact ⟨by decide, List.chain'_singleton _⟩)).trans (by decide)

/-- Claim C8: after sorting, a reported conflict pair always has the second
edit beginning strictly before the first ends, so touching edits (second
begins exactly where the first ends) never trigger the conflict path; when
every consecutive sorted pair at most touches, `rewrite` succeeds and in
particular raises no `RewriterConflict`. -/
theorem C8_touching_edits_never_conflict (r : Rewriter) :
    (List.Chain' (fun a b : Range × String => a.1.end_pos ≤ b.1.begin_pos) r.sortedRanges →
      ∃ nb : Buffer, r.rewrite = Except.ok nb) ∧
    (∀ l : List (Range × String), ∀ f s : Range,
      checkEdits l = some (f, s) → s.begin_pos < f.end_pos) :=
  ⟨fun h => ⟨_, rewrite_ok_of_check_none (checkEdits_none_of_chain _ h)⟩,
    fun l f s h => checkEdits_some_overlap l f s h⟩

/-- Claim C8, witness: the touching rewriter (edits `[0,2)` and `[2,4)` on
`"abcde"`) rewrites successfully. -/
theorem C8_touching_edits_never_conflict_witness :
    ∃ nb : Buffer, touchRw.rewrite = Except.ok nb :=
  (C8_touching_edits_never_conflict touchRw).1 (by
    rw [show touchRw.sortedRanges =
      [(⟨abcdeBuf, 0, 2⟩, ""), (⟨abcdeBuf, 2, 4⟩, "")] from rfl, List.chain'_cons]
    exact ⟨by decide, List.chain'_singleton _⟩)

/-- Claim C9, counterexample: on `"abcde"`, the range `[3, -1)` has
`begin_pos > end_pos`, yet `source()` is `"d"`, not the empty string —
Python's negative-index wrap-around makes the slice nonempty, refuting the
claim's universally stated "source() returns the empty string". -/
theorem C9_reversed_range_counterexample :
    (Range.mk abcdeBuf 3 (-1)).begin_pos > (Range.mk abcdeBuf 3 (-1)).end_pos ∧
    (Range.mk abcdeBuf 3 (-1)).source = "d" ∧
    (Range.mk abcdeBuf 3 (-1)).source ≠ "" := by
  decide

/-- Claim C9 as amended: constructing a `Range` with `begin_pos > end_pos`
never fails (construction is total and unvalidated), `size()` is the
negative value `end_pos - begin_pos`, and — provided `end_pos` is
nonnegative, so that no negative-index wrap-around occurs — `source()`
returns the empty string. -/
theorem C9_reversed_range_amended (buf : Buffer) (bp ep : Int)
    (hlt : ep < bp) (hep : 0 ≤ ep) :
    (Range.mk buf bp ep).size = ep - bp ∧
    (Range.mk buf bp ep).size < 0 ∧
    (Range.mk buf bp ep).source = "" := by
  refine ⟨rfl, by simp only [Range.size]; omega, ?_⟩
  rw [Range.source, pySlice]
  have hb : pyResolveIndex buf.source.length ep ≤ pyResolveIndex buf.source.length bp := by
    rw [pyResolveIndex, pyResolveIndex, if_neg (by omega), if_neg (by omega)]
    have : ep.toNat ≤ bp.toNat := by omega
    omega
  have hdrop : (buf.source.data.take (pyResolveIndex buf.source.length ep)).length ≤
      pyResolveIndex buf.source.length bp := by
    rw [List.length_take]
    omega
  rw [List.drop_eq_nil_of_le hdrop]

/-- Claim C9 as amended, witness: the range `[3, 2)` on `"abcde"`. -/
theorem C9_reversed_range_amended_witness :
    (Range.mk abcdeBuf 3 2).size = 2 - 3 ∧
    (Range.mk abcdeBuf 3 2).size < 0 ∧
    (Range.mk abcdeBuf 3 2).source = "" :=
  C9_reversed_range_amended abcdeBuf 3 2 (by decide) (by decide)

/-- Claim C10: whenever the sorted edits contain no consecutive pair with
the second beginning strictly before the first ends, `rewrite` returns a
buffer — nothing else can fail: edits are never checked to belong to the
rewriter's buffer and their offsets are never bounds-checked (the witness
uses a foreign buffer and offsets `-2` and `10` on a 5-character source). -/
theorem C10_rewrite_no_other_failure (r : Rewriter)
    (h : List.Chain' (fun a b : Range × String => ¬(b.1.begin_pos < a.1.end_pos))
      r.sortedRanges) :
    ∃ nb : Buffer, r.rewrite = Except.ok nb :=
  ⟨_, rewrite_ok_of_check_none (checkEdits_none_of_chain _
    (h.imp fun _ _ hab => not_lt.mp hab))⟩

/-- Claim C10, witness: the single-edit rewriter whose edit range lives in a
different buffer and has out-of-bounds offsets still rewrites successfully. -/
theorem C10_rewrite_no_other_failure_witness :
    ∃ nb : Buffer, weirdRw.rewrite = Except.ok nb :=
  C10_rewrite_no_other_failure weirdRw (by
    rw [show weirdRw.sortedRanges = [(⟨otherBuf, -2, 10⟩, "Q")] from rfl]
    exact List.chain'_singleton _)

end PythonSource
